import Mathlib

/-! # Arduino-Tiny: caliper frame decoder and BMP280 SPI transaction framing

Shallow embedding of

* `src/libraries/Caliper/CaliperUtils.h` and `CaliperUtils.cpp`
  (`IsMetric`, `ValueIsValid`, `RawToValue`);
* the two inline members `BeginTransaction` and `EndTransaction` of
  `src/libraries/BMP280SPI/BMP280SPI.h`.

Conventions of the embedding:

* a `uint32_t` is a natural number `r` with `r < 2 ^ 32`; the bit operators of
  the source are the bit operators of `Nat`;
* the `float` returned by `RawToValue` is read as an exact rational number:
  every arithmetic step of the source (`/ 100`, `/ 1000`, `+ 0.0005`, unary
  minus) is the exact operation on `ℚ`; `RawToValue_binary32` is the same
  function with every step rounded to IEEE binary32, and is used where the
  rounding matters (the round trip through the bit layout);
* a `uint8_t*` is an address (a natural number, `NULL` being `0`) into a
  byte memory `Nat → Nat`, passed in and returned explicitly.
-/

/-! ## Caliper decoder -/

namespace CaliperUtils

/-- The null pointer of the source. -/
def NULL : Nat := 0

/-- Source `CaliperUtils::IsMetric` (CaliperUtils.h, line 34):
`return((inRawValue & 0x800000) == 0);` -/
def IsMetric (inRawValue : Nat) : Bool :=
  (inRawValue &&& 0x800000) == 0

/-- Source `CaliperUtils::ValueIsValid` (CaliperUtils.h, line 37):
`return(inRawValue != 0xFFFFFFFF);` -/
def ValueIsValid (inRawValue : Nat) : Bool :=
  inRawValue != 0xFFFFFFFF

/-- The two local variables `value` and `dPlaces` of `RawToValue`. -/
structure Locals where
  value : ℚ
  dPlaces : Nat
deriving DecidableEq

/-- What a call of `RawToValue` yields: the returned `value` and the byte
memory after the call. -/
structure Result where
  value : ℚ
  mem : Nat → Nat

/-- Source `CaliperUtils::RawToValue` (CaliperUtils.cpp, lines 27-84).
`outDecimalPlaces` is the address held by the pointer argument and `mem` the
byte memory it points into. -/
def RawToValue (inRawValue : Nat) (outDecimalPlaces : Nat) (mem : Nat → Nat) : Result :=
  -- uint8_t dPlaces = 2;
  let dPlaces : Nat := 2
  let s : Locals :=
    if ValueIsValid inRawValue then
      let s1 : Locals :=
        if IsMetric inRawValue then
          -- value = (inRawValue & 0xFFFFF); value /= 100;
          let value : ℚ := ((inRawValue &&& 0xFFFFF : Nat) : ℚ)
          let value : ℚ := value / 100
          { value := value, dPlaces := dPlaces }
        else
          -- value = ((inRawValue & 0xFFFFF) >> 1); value /= 1000;
          let value : ℚ := (((inRawValue &&& 0xFFFFF) >>> 1 : Nat) : ℚ)
          let value : ℚ := value / 1000
          if inRawValue &&& 1 ≠ 0 then
            -- dPlaces = 4; value += 0.0005;
            { value := value + 0.0005, dPlaces := 4 }
          else
            -- dPlaces = 3;
            { value := value, dPlaces := 3 }
      if inRawValue &&& 0x100000 ≠ 0 then
        -- value = -value;
        { s1 with value := -s1.value }
      else
        s1
    else
      -- value = 0; dPlaces = 0;
      { value := 0, dPlaces := 0 }
  if outDecimalPlaces ≠ NULL then
    -- *outDecimalPlaces = dPlaces;
    { value := s.value, mem := Function.update mem outDecimalPlaces s.dPlaces }
  else
    { value := s.value, mem := mem }

/-! ### The decoder in binary32

The source computes in `float`.  The definitions below read `float` as IEEE
binary32 with round-to-nearest, ties-to-even: a finite binary32 number is
represented by the rational it denotes (so `-0.0` and `0.0` are both `0`), and
the exponent range is left unbounded, which changes nothing here since every
value the decoder handles is `0` or lies between `2 ^ (-11)` and `2 ^ 14`. -/

/-- Round a rational to the nearest integer, a tie going to the even
neighbour. -/
def roundNearestEven (q : ℚ) : ℤ :=
  let f : ℤ := ⌊q⌋
  if q - f < 1 / 2 then f
  else if 1 / 2 < q - f then f + 1
  else if f % 2 = 0 then f else f + 1

/-- Round `x` to a binary floating-point number with `p` significant bits
(`p = 24` is binary32, `p = 53` is binary64), nearest, ties to even. -/
def roundBinary (p : Nat) (x : ℚ) : ℚ :=
  if x = 0 then 0
  else
    let e : ℤ := Int.log 2 |x|
    (roundNearestEven (x / 2 ^ (e - (p - 1))) : ℚ) * 2 ^ (e - (p - 1))

/-- Source `CaliperUtils::RawToValue` (CaliperUtils.cpp, lines 27-84) with the
`float` variable read as binary32: the conversion of the integer and every
assignment to `value` round to 24 significant bits.  In `value += 0.0005` the
constant is a `double` and the sum is formed in `double` before it is stored
back; `doublePrecision` is the number of significant bits of `double` on the
target (24 with avr-gcc, where `double` is binary32; 53 where it is
binary64). -/
def RawToValue_binary32 (doublePrecision : Nat) (inRawValue : Nat) (outDecimalPlaces : Nat)
    (mem : Nat → Nat) : Result :=
  -- uint8_t dPlaces = 2;
  let dPlaces : Nat := 2
  let s : Locals :=
    if ValueIsValid inRawValue then
      let s1 : Locals :=
        if IsMetric inRawValue then
          -- value = (inRawValue & 0xFFFFF); value /= 100;
          let value : ℚ := roundBinary 24 ((inRawValue &&& 0xFFFFF : Nat) : ℚ)
          let value : ℚ := roundBinary 24 (value / 100)
          { value := value, dPlaces := dPlaces }
        else
          -- value = ((inRawValue & 0xFFFFF) >> 1); value /= 1000;
          let value : ℚ := roundBinary 24 (((inRawValue &&& 0xFFFFF) >>> 1 : Nat) : ℚ)
          let value : ℚ := roundBinary 24 (value / 1000)
          if inRawValue &&& 1 ≠ 0 then
            -- dPlaces = 4; value += 0.0005;
            let sum : ℚ := roundBinary doublePrecision
              (value + roundBinary doublePrecision 0.0005)
            { value := roundBinary 24 sum, dPlaces := 4 }
          else
            -- dPlaces = 3;
            { value := value, dPlaces := 3 }
      if inRawValue &&& 0x100000 ≠ 0 then
        -- value = -value;
        { s1 with value := -s1.value }
      else
        s1
    else
      -- value = 0; dPlaces = 0;
      { value := 0, dPlaces := 0 }
  if outDecimalPlaces ≠ NULL then
    -- *outDecimalPlaces = dPlaces;
    { value := s.value, mem := Function.update mem outDecimalPlaces s.dPlaces }
  else
    { value := s.value, mem := mem }

/-- The raw bit layout written out as an encoder (used only to state the
round trip): a count `k`, the sign flag in bit 20 and the unit flag in
bit 23. -/
def encode (imperial negative : Bool) (k : Nat) : Nat :=
  k ||| (if negative then 0x100000 else 0) ||| (if imperial then 0x800000 else 0)

end CaliperUtils

/-! ## BMP280 transaction framing -/

/-- Modelled from the spec: the hardware the driver acts on, which is not
part of the repository (Arduino core and the tinySPI library): the current
SPI data mode and the output level of every digital pin. -/
structure Hardware where
  spiDataMode : Nat
  pinLevel : Nat → Nat

/-- Modelled from the spec: constant `LOW` of the Arduino core. -/
def LOW : Nat := 0

/-- Modelled from the spec: constant `HIGH` of the Arduino core. -/
def HIGH : Nat := 1

/-- Modelled from the spec: constant `SPI_MODE0` of the SPI library
("SPI mode is fixed to mode 0"). -/
def SPI_MODE0 : Nat := 0

/-- Modelled from the spec: `SPI.setDataMode` of the SPI transport
(capability `setMode`): it stores the data mode and touches no pin. -/
def SPI.setDataMode (mode : Nat) (hw : Hardware) : Hardware :=
  { hw with spiDataMode := mode }

/-- Modelled from the spec: `digitalWrite` of the Arduino core (the
digital-pin-output capability): it drives the one pin `pin` low when `val`
is `LOW` and high otherwise. -/
def digitalWrite (pin val : Nat) (hw : Hardware) : Hardware :=
  { hw with pinLevel := Function.update hw.pinLevel pin (if val = LOW then LOW else HIGH) }

/-- Modelled from the spec: `struct bmp280_calib_param` of the absent header
`bmp280_defs.h`: the twelve calibration coefficients and `t_fine`. -/
structure bmp280_calib_param where
  dig_T1 : Int
  dig_T2 : Int
  dig_T3 : Int
  dig_P1 : Int
  dig_P2 : Int
  dig_P3 : Int
  dig_P4 : Int
  dig_P5 : Int
  dig_P6 : Int
  dig_P7 : Int
  dig_P8 : Int
  dig_P9 : Int
  t_fine : Int

/-- Data members of class `BMP280SPI` (BMP280SPI.h, lines 41-42). -/
structure BMP280SPI where
  mCSPin : Nat
  mCParams : bmp280_calib_param

namespace BMP280SPI

/-- Source `BMP280SPI::BeginTransaction` (BMP280SPI.h, lines 44-48):
`SPI.setDataMode(SPI_MODE0); digitalWrite(mCSPin, LOW);` -/
def BeginTransaction (self : BMP280SPI) (hw : Hardware) : Hardware :=
  let hw := SPI.setDataMode SPI_MODE0 hw
  digitalWrite self.mCSPin LOW hw

/-- Source `BMP280SPI::EndTransaction` (BMP280SPI.h, lines 50-53):
`digitalWrite(mCSPin, HIGH);` -/
def EndTransaction (self : BMP280SPI) (hw : Hardware) : Hardware :=
  digitalWrite self.mCSPin HIGH hw

end BMP280SPI

/-! ## Bit-level facts about 32-bit frames -/

namespace CaliperUtils

/-- Masking with a single bit gives 0 exactly when that bit is clear. -/
theorem and_bit_eq_zero_iff (r i : Nat) : r &&& 2 ^ i = 0 ↔ r.testBit i = false := by
  rw [Nat.and_two_pow]
  cases h : r.testBit i <;> simp

/-- The unit mask `0x800000` tests bit 23. -/
theorem and_bit23 (r : Nat) : r &&& 0x800000 = 0 ↔ r.testBit 23 = false :=
  and_bit_eq_zero_iff r 23

/-- The sign mask `0x100000` tests bit 20. -/
theorem and_bit20 (r : Nat) : r &&& 0x100000 = 0 ↔ r.testBit 20 = false :=
  and_bit_eq_zero_iff r 20

/-- The mask `1` tests bit 0. -/
theorem and_bit0 (r : Nat) : r &&& 1 = 0 ↔ r.testBit 0 = false :=
  and_bit_eq_zero_iff r 0

/-- A frame is metric exactly when bit 23 is clear. -/
theorem isMetric_iff (r : Nat) : IsMetric r = true ↔ r.testBit 23 = false := by
  simp [IsMetric, and_bit23]

/-- A frame is valid exactly when it is not the sentinel. -/
theorem valueIsValid_iff (r : Nat) : ValueIsValid r = true ↔ r ≠ 0xFFFFFFFF := by
  simp [ValueIsValid]

/-- A frame with one of its 32 bits clear is not the sentinel. -/
theorem valid_of_bit_clear (r i : Nat) (hi : i < 32) (h : r.testBit i = false) :
    ValueIsValid r = true := by
  rw [valueIsValid_iff]
  rintro rfl
  have : (2 ^ 32 - 1 : Nat).testBit i = true := by
    rw [Nat.testBit_two_pow_sub_one]; simpa using hi
  have h2 : (0xFFFFFFFF : Nat) = 2 ^ 32 - 1 := by norm_num
  rw [h2] at h
  rw [h] at this
  exact Bool.false_ne_true this

end CaliperUtils

/-! ## Decoding a frame, case by case -/

namespace CaliperUtils

/-- Claim C1.  For every 32-bit frame `r` with bit 23 clear (metric) and bit 20
clear (non-negative), whatever the other bits are and whatever the pointer
argument is, `RawToValue` returns exactly `(r & 0xFFFFF) / 100`, and through a
non-null pointer it reports 2 decimal places; in particular a magnitude of
12345 gives 123.45. -/
theorem RawToValue_metric_nonneg (r : Nat) (_hr : r < 2 ^ 32)
    (h23 : r.testBit 23 = false) (h20 : r.testBit 20 = false)
    (out : Nat) (mem : Nat → Nat) :
    (RawToValue r out mem).value = ((r &&& 0xFFFFF : Nat) : ℚ) / 100 ∧
    (out ≠ NULL → (RawToValue r out mem).mem out = 2) ∧
    (r &&& 0xFFFFF = 12345 → (RawToValue r out mem).value = 123.45) := by
  have hv : ValueIsValid r = true := valid_of_bit_clear r 23 (by norm_num) h23
  have hm : IsMetric r = true := (isMetric_iff r).2 h23
  have hs : r &&& 0x100000 = 0 := (and_bit20 r).2 h20
  have hval : (RawToValue r out mem).value = ((r &&& 0xFFFFF : Nat) : ℚ) / 100 := by
    by_cases ho : out = NULL <;> simp [RawToValue, hv, hm, hs, ho]
  refine ⟨hval, ?_, ?_⟩
  · intro ho
    simp [RawToValue, hv, hm, hs, ho]
  · intro hmag
    rw [hval, hmag]
    norm_num

/-- Witness for C1: the frame `12345` (bits 20 and 23 clear), decoded through
the pointer `1`. -/
theorem RawToValue_metric_nonneg_witness :
    (RawToValue 12345 1 (fun _ => 0)).value = ((12345 &&& 0xFFFFF : Nat) : ℚ) / 100 ∧
    ((1 : Nat) ≠ NULL → (RawToValue 12345 1 (fun _ => 0)).mem 1 = 2) ∧
    (12345 &&& 0xFFFFF = 12345 → (RawToValue 12345 1 (fun _ => 0)).value = 123.45) :=
  RawToValue_metric_nonneg 12345 (by decide) (by decide) (by decide) 1 (fun _ => 0)

/-- Claim C2.  For every 32-bit frame `r` with bit 23 set (imperial), bit 20
clear and bit 0 clear, `RawToValue` returns exactly
`((r & 0xFFFFF) >> 1) / 1000`, and through a non-null pointer it reports 3
decimal places; in particular a magnitude of 2468 gives 1.234. -/
theorem RawToValue_imperial_even (r : Nat) (_hr : r < 2 ^ 32)
    (h23 : r.testBit 23 = true) (h20 : r.testBit 20 = false) (h0 : r.testBit 0 = false)
    (out : Nat) (mem : Nat → Nat) :
    (RawToValue r out mem).value = (((r &&& 0xFFFFF) >>> 1 : Nat) : ℚ) / 1000 ∧
    (out ≠ NULL → (RawToValue r out mem).mem out = 3) ∧
    (r &&& 0xFFFFF = 2468 → (RawToValue r out mem).value = 1.234) := by
  have hv : ValueIsValid r = true := valid_of_bit_clear r 20 (by norm_num) h20
  have hm : IsMetric r = false := by
    rw [← Bool.not_eq_true, isMetric_iff, h23]; simp
  have hs : r &&& 0x100000 = 0 := (and_bit20 r).2 h20
  have hb : r &&& 1 = 0 := (and_bit0 r).2 h0
  have hval : (RawToValue r out mem).value = (((r &&& 0xFFFFF) >>> 1 : Nat) : ℚ) / 1000 := by
    by_cases ho : out = NULL <;> simp [RawToValue, hv, hm, hs, hb, ho]
  refine ⟨hval, ?_, ?_⟩
  · intro ho
    simp [RawToValue, hv, hm, hs, hb, ho]
  · intro hmag
    have hsh : (2468 : Nat) >>> 1 = 1234 := by decide
    rw [hval, hmag, hsh]
    norm_num

/-- Witness for C2: the frame `0x8009A4` (bit 23 set, magnitude 2468), decoded
through the pointer `1`. -/
theorem RawToValue_imperial_even_witness :
    (RawToValue 0x8009A4 1 (fun _ => 0)).value
      = (((0x8009A4 &&& 0xFFFFF) >>> 1 : Nat) : ℚ) / 1000 ∧
    ((1 : Nat) ≠ NULL → (RawToValue 0x8009A4 1 (fun _ => 0)).mem 1 = 3) ∧
    (0x8009A4 &&& 0xFFFFF = 2468 → (RawToValue 0x8009A4 1 (fun _ => 0)).value = 1.234) :=
  RawToValue_imperial_even 0x8009A4 (by decide) (by decide) (by decide) (by decide)
    1 (fun _ => 0)

/-- Claim C3.  For every 32-bit frame `r` with bit 23 set (imperial), bit 20
clear and bit 0 set, `RawToValue` returns exactly
`((r & 0xFFFFF) >> 1) / 1000 + 0.0005`, and through a non-null pointer it
reports 4 decimal places; in particular a magnitude of 2469 gives 1.2345. -/
theorem RawToValue_imperial_odd (r : Nat) (_hr : r < 2 ^ 32)
    (h23 : r.testBit 23 = true) (h20 : r.testBit 20 = false) (h0 : r.testBit 0 = true)
    (out : Nat) (mem : Nat → Nat) :
    (RawToValue r out mem).value = (((r &&& 0xFFFFF) >>> 1 : Nat) : ℚ) / 1000 + 0.0005 ∧
    (out ≠ NULL → (RawToValue r out mem).mem out = 4) ∧
    (r &&& 0xFFFFF = 2469 → (RawToValue r out mem).value = 1.2345) := by
  have hv : ValueIsValid r = true := valid_of_bit_clear r 20 (by norm_num) h20
  have hm : IsMetric r = false := by
    rw [← Bool.not_eq_true, isMetric_iff, h23]; simp
  have hs : r &&& 0x100000 = 0 := (and_bit20 r).2 h20
  have hb : r % 2 = 1 := by
    have h := h0
    rw [Nat.testBit_zero] at h
    exact of_decide_eq_true h
  have hval : (RawToValue r out mem).value
      = (((r &&& 0xFFFFF) >>> 1 : Nat) : ℚ) / 1000 + 0.0005 := by
    by_cases ho : out = NULL <;> simp [RawToValue, hv, hm, hs, hb, ho]
  refine ⟨hval, ?_, ?_⟩
  · intro ho
    simp [RawToValue, hv, hm, hs, hb, ho]
  · intro hmag
    have hsh : (2469 : Nat) >>> 1 = 1234 := by decide
    rw [hval, hmag, hsh]
    norm_num

/-- Witness for C3: the frame `0x8009A5` (bit 23 set, magnitude 2469), decoded
through the pointer `1`. -/
theorem RawToValue_imperial_odd_witness :
    (RawToValue 0x8009A5 1 (fun _ => 0)).value
      = (((0x8009A5 &&& 0xFFFFF) >>> 1 : Nat) : ℚ) / 1000 + 0.0005 ∧
    ((1 : Nat) ≠ NULL → (RawToValue 0x8009A5 1 (fun _ => 0)).mem 1 = 4) ∧
    (0x8009A5 &&& 0xFFFFF = 2469 → (RawToValue 0x8009A5 1 (fun _ => 0)).value = 1.2345) :=
  RawToValue_imperial_odd 0x8009A5 (by decide) (by decide) (by decide) (by decide)
    1 (fun _ => 0)

/-- Claim C4.  The sentinel frame `0xFFFFFFFF` decodes to the value 0 with 0
decimal places (an empty reading), not to the negative imperial measurement
its unit, sign and magnitude bits would otherwise spell. -/
theorem RawToValue_sentinel (out : Nat) (mem : Nat → Nat) :
    (RawToValue 0xFFFFFFFF out mem).value = 0 ∧
    (out ≠ NULL → (RawToValue 0xFFFFFFFF out mem).mem out = 0) ∧
    (Nat.testBit 0xFFFFFFFF 23 = true ∧ Nat.testBit 0xFFFFFFFF 20 = true ∧
      0xFFFFFFFF &&& 0xFFFFF = 0xFFFFF) := by
  have hv : ValueIsValid 0xFFFFFFFF = false := by decide
  refine ⟨?_, ?_, by decide, by decide, by decide⟩
  · by_cases ho : out = NULL <;> simp [RawToValue, hv, ho]
  · intro ho
    simp [RawToValue, hv, ho]

/-- Witness for C4: the sentinel decoded through the pointer `1` into a memory
whose bytes all hold 7. -/
theorem RawToValue_sentinel_witness :
    (RawToValue 0xFFFFFFFF 1 (fun _ => 7)).value = 0 ∧
    (RawToValue 0xFFFFFFFF 1 (fun _ => 7)).mem 1 = 0 :=
  ⟨(RawToValue_sentinel 1 (fun _ => 7)).1,
   (RawToValue_sentinel 1 (fun _ => 7)).2.1 (by decide)⟩

end CaliperUtils

/-! ## The decode in closed form -/

namespace CaliperUtils

/-- The value returned for a valid frame: a sign taken from bit 20 times the
magnitude scaled by the unit selected by bit 23. -/
theorem value_of_valid (r out : Nat) (mem : Nat → Nat) (hv : r ≠ 0xFFFFFFFF) :
    (RawToValue r out mem).value
      = (if r &&& 0x100000 = 0 then (1 : ℚ) else -1) *
        (if r &&& 0x800000 = 0 then ((r &&& 0xFFFFF : Nat) : ℚ) / 100
         else (((r &&& 0xFFFFF) >>> 1 : Nat) : ℚ) / 1000
                + (if r % 2 = 1 then 0.0005 else 0)) := by
  have hv2 : ValueIsValid r = true := (valueIsValid_iff r).2 hv
  by_cases ho : out = NULL <;> by_cases hs : r &&& 0x100000 = 0 <;>
    by_cases hm : r &&& 0x800000 = 0 <;> by_cases hb : r % 2 = 1 <;>
    simp [RawToValue, IsMetric, hv2, ho, hs, hm, hb]

/-- The decimal-place count stored for a valid frame. -/
theorem mem_of_valid (r out : Nat) (mem : Nat → Nat) (hv : r ≠ 0xFFFFFFFF)
    (ho : out ≠ NULL) :
    (RawToValue r out mem).mem
      = Function.update mem out
          (if r &&& 0x800000 = 0 then 2 else if r % 2 = 1 then 4 else 3) := by
  have hv2 : ValueIsValid r = true := (valueIsValid_iff r).2 hv
  by_cases hs : r &&& 0x100000 = 0 <;>
    by_cases hm : r &&& 0x800000 = 0 <;> by_cases hb : r % 2 = 1 <;>
    simp [RawToValue, IsMetric, hv2, ho, hs, hm, hb]

/-- The sentinel decodes to value 0 and stores the count 0. -/
theorem result_of_sentinel (out : Nat) (mem : Nat → Nat) :
    (RawToValue 0xFFFFFFFF out mem).value = 0 ∧
    (RawToValue 0xFFFFFFFF out mem).mem
      = if out = NULL then mem else Function.update mem out 0 := by
  have hv : ValueIsValid 0xFFFFFFFF = false := by decide
  by_cases ho : out = NULL <;> simp [RawToValue, hv, ho]

/-- With a null pointer the memory is returned untouched. -/
theorem mem_of_null (r : Nat) (mem : Nat → Nat) : (RawToValue r NULL mem).mem = mem := by
  simp [RawToValue]

/-- Setting bit 20 leaves every mask that avoids bit 20 unchanged. -/
theorem or_sign_and (r c : Nat) (hc : 0x100000 &&& c = 0) :
    (r ||| 0x100000) &&& c = r &&& c := by
  rw [Nat.and_distrib_right, hc, Nat.or_zero]

/-- Setting bit 20 leaves the parity unchanged. -/
theorem or_sign_mod_two (r : Nat) : (r ||| 0x100000) % 2 = r % 2 := by
  rw [← Nat.and_one_is_mod, ← Nat.and_one_is_mod]
  exact or_sign_and r 1 (by decide)

/-- After setting bit 20 the sign test of the source succeeds. -/
theorem or_sign_and_sign (r : Nat) : (r ||| 0x100000) &&& 0x100000 ≠ 0 := by
  intro h
  have h2 := (and_bit20 (r ||| 0x100000)).1 h
  rw [Nat.testBit_or] at h2
  have h3 : Nat.testBit 0x100000 20 = true := by decide
  rw [h3, Bool.or_true] at h2
  exact Bool.noConfusion h2

/-- The only frame with bit 20 clear that becomes the sentinel when bit 20 is
set is `0xFFEFFFFF`. -/
theorem or_sign_eq_sentinel_iff (r : Nat) (h20 : r.testBit 20 = false) :
    r ||| 0x100000 = 0xFFFFFFFF ↔ r = 0xFFEFFFFF := by
  constructor
  · intro h
    apply Nat.eq_of_testBit_eq
    intro i
    have hi : (r ||| 0x100000).testBit i = Nat.testBit 0xFFFFFFFF i := by rw [h]
    rw [Nat.testBit_or] at hi
    by_cases h32 : i < 32
    · by_cases hi20 : i = 20
      · subst hi20
        rw [h20]
        decide
      · have key : ∀ j, j < 32 → j ≠ 20 → Nat.testBit 0x100000 j = false ∧
            Nat.testBit 0xFFEFFFFF j = Nat.testBit 0xFFFFFFFF j := by decide
        obtain ⟨ha, hb⟩ := key i h32 hi20
        rw [ha, Bool.or_false] at hi
        rw [hi, hb]
    · have hge : 32 ≤ i := Nat.le_of_not_lt h32
      have ha : Nat.testBit 0x100000 i = false :=
        Nat.testBit_lt_two_pow (lt_of_lt_of_le (by norm_num) (Nat.pow_le_pow_right (by norm_num) hge))
      have hb : Nat.testBit 0xFFEFFFFF i = false :=
        Nat.testBit_lt_two_pow (lt_of_lt_of_le (by norm_num) (Nat.pow_le_pow_right (by norm_num) hge))
      have hc : Nat.testBit 0xFFFFFFFF i = false :=
        Nat.testBit_lt_two_pow (lt_of_lt_of_le (by norm_num) (Nat.pow_le_pow_right (by norm_num) hge))
      rw [ha, Bool.or_false, hc] at hi
      rw [hi, hb]
  · rintro rfl
    decide

end CaliperUtils

/-! ## Sign bit and round trip -/

namespace CaliperUtils

/-- Counterexample to claim C5 as stated.  The frame `0xFFEFFFFF` is valid and
has bit 20 clear: it decodes to 524.2875 with 4 decimal places.  Setting its
sign bit yields the sentinel `0xFFFFFFFF`, which decodes to 0 with 0 decimal
places: neither the negated value nor the same count. -/
theorem RawToValue_sign_counterexample :
    0xFFEFFFFF < 2 ^ 32 ∧ 0xFFEFFFFF ≠ 0xFFFFFFFF ∧ Nat.testBit 0xFFEFFFFF 20 = false ∧
    (RawToValue 0xFFEFFFFF 1 (fun _ => 0)).value = 524.2875 ∧
    (RawToValue 0xFFEFFFFF 1 (fun _ => 0)).mem 1 = 4 ∧
    (RawToValue (0xFFEFFFFF ||| 0x100000) 1 (fun _ => 0)).value = 0 ∧
    (RawToValue (0xFFEFFFFF ||| 0x100000) 1 (fun _ => 0)).mem 1 = 0 ∧
    (RawToValue (0xFFEFFFFF ||| 0x100000) 1 (fun _ => 0)).value
      ≠ -(RawToValue 0xFFEFFFFF 1 (fun _ => 0)).value ∧
    (RawToValue (0xFFEFFFFF ||| 0x100000) 1 (fun _ => 0)).mem 1
      ≠ (RawToValue 0xFFEFFFFF 1 (fun _ => 0)).mem 1 := by
  have e1 : (0xFFEFFFFF : Nat) &&& 0x100000 = 0 := by decide
  have e2 : (0xFFEFFFFF : Nat) &&& 0x800000 = 0x800000 := by decide
  have e3 : (0xFFEFFFFF : Nat) &&& 0xFFFFF = 0xFFFFF := by decide
  have e4 : (0xFFFFF : Nat) >>> 1 = 524287 := by decide
  have e5 : (0xFFEFFFFF : Nat) ||| 0x100000 = 0xFFFFFFFF := by decide
  have hne : (1 : Nat) ≠ NULL := by decide
  have hv : (RawToValue 0xFFEFFFFF 1 (fun _ => 0)).value = 524.2875 := by
    rw [value_of_valid _ _ _ (by decide), e1, e2, e3, e4]
    norm_num
  have hm : (RawToValue 0xFFEFFFFF 1 (fun _ => 0)).mem 1 = 4 := by
    rw [mem_of_valid _ _ _ (by decide) hne, e2]
    norm_num
  have hv2 : (RawToValue (0xFFEFFFFF ||| 0x100000) 1 (fun _ => 0)).value = 0 := by
    rw [e5]; exact (result_of_sentinel 1 _).1
  have hm2 : (RawToValue (0xFFEFFFFF ||| 0x100000) 1 (fun _ => 0)).mem 1 = 0 := by
    rw [e5, (result_of_sentinel 1 _).2, if_neg hne]
    simp
  refine ⟨by norm_num, by decide, by decide, hv, hm, hv2, hm2, ?_, ?_⟩
  · rw [hv, hv2]; norm_num
  · rw [hm, hm2]; decide

/-- Claim C5, as amended.  For every 32-bit frame `r` whose sign bit 20 is
clear and which is not `0xFFEFFFFF` (so that `r | 0x100000` is not the
sentinel), decoding `r | 0x100000` returns exactly the negation of the value
decoded from `r` and leaves the same memory, hence the same decimal-place
count. -/
theorem RawToValue_sign_negates (r : Nat) (_hr : r < 2 ^ 32)
    (h20 : r.testBit 20 = false) (hne : r ≠ 0xFFEFFFFF)
    (out : Nat) (mem : Nat → Nat) :
    (RawToValue (r ||| 0x100000) out mem).value = -(RawToValue r out mem).value ∧
    (RawToValue (r ||| 0x100000) out mem).mem = (RawToValue r out mem).mem := by
  have hv : r ≠ 0xFFFFFFFF := by
    have := valid_of_bit_clear r 20 (by norm_num) h20
    exact (valueIsValid_iff r).1 this
  have hv2 : r ||| 0x100000 ≠ 0xFFFFFFFF := fun h =>
    hne ((or_sign_eq_sentinel_iff r h20).1 h)
  have hs : r &&& 0x100000 = 0 := (and_bit20 r).2 h20
  have hs2 := or_sign_and_sign r
  have hu : (r ||| 0x100000) &&& 0x800000 = r &&& 0x800000 := or_sign_and r _ (by decide)
  have hg : (r ||| 0x100000) &&& 0xFFFFF = r &&& 0xFFFFF := or_sign_and r _ (by decide)
  have hp := or_sign_mod_two r
  constructor
  · rw [value_of_valid _ _ _ hv2, value_of_valid _ _ _ hv, if_neg hs2, if_pos hs, hu, hg, hp]
    ring
  · by_cases ho : out = NULL
    · subst ho
      rw [mem_of_null, mem_of_null]
    · rw [mem_of_valid _ _ _ hv2 ho, mem_of_valid _ _ _ hv ho, hu, hp]

/-- Witness for C5 as amended: the frame `0x8009A5` (1.2345 in) and its
negative `0x9009A5`, decoded through the pointer `1`. -/
theorem RawToValue_sign_negates_witness :
    (RawToValue (0x8009A5 ||| 0x100000) 1 (fun _ => 0)).value
      = -(RawToValue 0x8009A5 1 (fun _ => 0)).value ∧
    (RawToValue (0x8009A5 ||| 0x100000) 1 (fun _ => 0)).mem
      = (RawToValue 0x8009A5 1 (fun _ => 0)).mem :=
  RawToValue_sign_negates 0x8009A5 (by decide) (by decide) (by decide) 1 (fun _ => 0)

/-- A count below `2 ^ 20` has none of the flag bits set. -/
theorem count_and (k : Nat) (hk : k < 2 ^ 20) :
    k &&& 0xFFFFF = k ∧ k &&& 0x100000 = 0 ∧ k &&& 0x800000 = 0 := by
  refine ⟨?_, ?_, ?_⟩
  · have h := Nat.and_pow_two_sub_one_eq_mod k 20
    rw [Nat.mod_eq_of_lt hk] at h
    exact h
  · exact (and_bit20 k).2 (Nat.testBit_lt_two_pow hk)
  · exact (and_bit23 k).2
      (Nat.testBit_lt_two_pow (lt_trans hk (by norm_num)))

/-- The fields of an encoded frame: bits 0-19 hold the count, bit 20 the sign
flag, bit 23 the unit flag, and the frame is below `2 ^ 24`. -/
theorem encode_fields (imperial negative : Bool) (k : Nat) (hk : k < 2 ^ 20) :
    encode imperial negative k &&& 0xFFFFF = k ∧
    (encode imperial negative k &&& 0x100000 = 0 ↔ negative = false) ∧
    (encode imperial negative k &&& 0x800000 = 0 ↔ imperial = false) ∧
    encode imperial negative k % 2 = k % 2 ∧
    encode imperial negative k < 2 ^ 24 := by
  obtain ⟨h1, h2, h3⟩ := count_and k hk
  have h4 : k &&& 1 = k % 2 := Nat.and_one_is_mod k
  have hlt : encode imperial negative k < 2 ^ 24 := by
    unfold encode
    apply Nat.or_lt_two_pow
    · apply Nat.or_lt_two_pow (lt_trans hk (by norm_num))
      cases negative <;> simp
    · cases imperial <;> simp
  have hn : ∀ n : Bool,
      (if n then 0x100000 else 0 : Nat) &&& 0xFFFFF = 0 ∧
      (if n then 0x100000 else 0 : Nat) &&& 0x100000 = (if n then 0x100000 else 0) ∧
      (if n then 0x100000 else 0 : Nat) &&& 0x800000 = 0 ∧
      (if n then 0x100000 else 0 : Nat) &&& 1 = 0 := by decide
  have hu : ∀ i : Bool,
      (if i then 0x800000 else 0 : Nat) &&& 0xFFFFF = 0 ∧
      (if i then 0x800000 else 0 : Nat) &&& 0x100000 = 0 ∧
      (if i then 0x800000 else 0 : Nat) &&& 0x800000 = (if i then 0x800000 else 0) ∧
      (if i then 0x800000 else 0 : Nat) &&& 1 = 0 := by decide
  obtain ⟨n1, n2, n3, n4⟩ := hn negative
  obtain ⟨u1, u2, u3, u4⟩ := hu imperial
  refine ⟨?_, ?_, ?_, ?_, hlt⟩
  · unfold encode
    rw [Nat.and_distrib_right, Nat.and_distrib_right, h1, n1, u1, Nat.or_zero, Nat.or_zero]
  · unfold encode
    rw [Nat.and_distrib_right, Nat.and_distrib_right, h2, n2, u2, Nat.or_zero, Nat.zero_or]
    cases negative <;> simp
  · unfold encode
    rw [Nat.and_distrib_right, Nat.and_distrib_right, h3, n3, u3, Nat.or_zero, Nat.zero_or]
    cases imperial <;> simp
  · rw [← Nat.and_one_is_mod]
    unfold encode
    rw [Nat.and_distrib_right, Nat.and_distrib_right, h4, n4, u4, Nat.or_zero, Nat.or_zero]

/-- Halving the count and adding back the half step is exact. -/
theorem half_step (k : Nat) :
    ((k >>> 1 : Nat) : ℚ) / 1000 + (if k % 2 = 1 then 0.0005 else 0) = (k : ℚ) / 2000 := by
  rw [Nat.shiftRight_eq_div_pow, pow_one]
  have h := Nat.div_add_mod k 2
  have h2 : (k : ℚ) = 2 * ((k / 2 : Nat) : ℚ) + ((k % 2 : Nat) : ℚ) := by
    exact_mod_cast h.symm
  rcases Nat.mod_two_eq_zero_or_one k with h0 | h1
  · rw [h2, h0]; norm_num; ring
  · rw [h2, h1]; norm_num; ring

/-- Round trip with the arithmetic read exactly: for every count
`k < 2 ^ 20` and both signs, the encoded metric frame decodes to exactly
`k / 100` and the encoded imperial frame to exactly `k / 2000`, negated
exactly when the sign flag was encoded; the encoded frames are 32-bit
frames. -/
theorem encode_roundtrip_exact (k : Nat) (hk : k < 2 ^ 20) (negative : Bool)
    (out : Nat) (mem : Nat → Nat) :
    encode false negative k < 2 ^ 32 ∧ encode true negative k < 2 ^ 32 ∧
    (RawToValue (encode false negative k) out mem).value
      = (if negative then -((k : ℚ) / 100) else (k : ℚ) / 100) ∧
    (RawToValue (encode true negative k) out mem).value
      = (if negative then -((k : ℚ) / 2000) else (k : ℚ) / 2000) := by
  obtain ⟨m1, m2, m3, _, m5⟩ := encode_fields false negative k hk
  obtain ⟨i1, i2, i3, i4, i5⟩ := encode_fields true negative k hk
  have hvm : encode false negative k ≠ 0xFFFFFFFF := fun h => by
    rw [h] at m5; exact absurd m5 (by norm_num)
  have hvi : encode true negative k ≠ 0xFFFFFFFF := fun h => by
    rw [h] at i5; exact absurd i5 (by norm_num)
  have hm3 : encode false negative k &&& 0x800000 = 0 := m3.2 rfl
  have hi3 : ¬ (encode true negative k &&& 0x800000 = 0) := fun h => by
    have := i3.1 h
    exact Bool.noConfusion this
  refine ⟨lt_trans m5 (by norm_num), lt_trans i5 (by norm_num), ?_, ?_⟩
  · rw [value_of_valid _ _ _ hvm, if_pos hm3, m1]
    cases negative
    · rw [if_pos (m2.2 rfl)]; simp
    · rw [if_neg (fun h => Bool.noConfusion (m2.1 h))]; simp
  · rw [value_of_valid _ _ _ hvi, if_neg hi3, i1, i4, half_step]
    cases negative
    · rw [if_pos (i2.2 rfl)]; simp
    · rw [if_neg (fun h => Bool.noConfusion (i2.1 h))]; simp

end CaliperUtils

/-! ## Chip-select framing of a BMP280 transaction -/

namespace BMP280SPI

/-- Claim C9.  Over the hardware state (SPI data mode and the level of every
pin): `BeginTransaction` sets the data mode to mode 0 and drives `mCSPin` low,
`EndTransaction` drives `mCSPin` high; neither changes any other pin,
`EndTransaction` keeps the data mode, and after `BeginTransaction` followed
by `EndTransaction` the chip-select pin is high and the mode is mode 0,
whatever the state was before.  Low and high are different levels. -/
theorem transaction_frame (self : BMP280SPI) (hw : Hardware) :
    (self.BeginTransaction hw).spiDataMode = SPI_MODE0 ∧
    (self.BeginTransaction hw).pinLevel self.mCSPin = LOW ∧
    (self.EndTransaction hw).pinLevel self.mCSPin = HIGH ∧
    (∀ p, p ≠ self.mCSPin → (self.BeginTransaction hw).pinLevel p = hw.pinLevel p) ∧
    (∀ p, p ≠ self.mCSPin → (self.EndTransaction hw).pinLevel p = hw.pinLevel p) ∧
    (self.EndTransaction hw).spiDataMode = hw.spiDataMode ∧
    (self.EndTransaction (self.BeginTransaction hw)).pinLevel self.mCSPin = HIGH ∧
    (self.EndTransaction (self.BeginTransaction hw)).spiDataMode = SPI_MODE0 ∧
    LOW ≠ HIGH := by
  refine ⟨rfl, ?_, ?_, ?_, ?_, rfl, ?_, rfl, by decide⟩
  · simp [BeginTransaction, digitalWrite, SPI.setDataMode]
  · simp [EndTransaction, digitalWrite, LOW, HIGH]
  · intro p hp
    simp [BeginTransaction, digitalWrite, SPI.setDataMode, Function.update_noteq hp]
  · intro p hp
    simp [EndTransaction, digitalWrite, Function.update_noteq hp]
  · simp [EndTransaction, digitalWrite, LOW, HIGH]

/-- Witness for C9: a driver on chip-select pin 3, started from data mode 3
with every pin high; pin 5 keeps its level through both operations. -/
theorem transaction_frame_witness :
    (BeginTransaction ⟨3, ⟨0, 0, 0, 0, 0, 0, 0, 0, 0, 0, 0, 0, 0⟩⟩ ⟨3, fun _ => HIGH⟩).pinLevel 5
      = HIGH ∧
    (EndTransaction ⟨3, ⟨0, 0, 0, 0, 0, 0, 0, 0, 0, 0, 0, 0, 0⟩⟩ ⟨3, fun _ => HIGH⟩).pinLevel 5
      = HIGH :=
  ⟨(transaction_frame ⟨3, ⟨0, 0, 0, 0, 0, 0, 0, 0, 0, 0, 0, 0, 0⟩⟩
      ⟨3, fun _ => HIGH⟩).2.2.2.1 5 (by decide),
   (transaction_frame ⟨3, ⟨0, 0, 0, 0, 0, 0, 0, 0, 0, 0, 0, 0, 0⟩⟩
      ⟨3, fun _ => HIGH⟩).2.2.2.2.1 5 (by decide)⟩

end BMP280SPI

/-! ## Frame classification -/

namespace CaliperUtils

/-- Claim C10.  For every 32-bit frame `r`: `IsMetric r` holds exactly when
bit 23 of `r` is 0, and `ValueIsValid r` fails exactly when `r = 0xFFFFFFFF`;
so the only invalid frame is not metric, and every metric frame is valid. -/
theorem IsMetric_ValueIsValid_classify (r : Nat) (_hr : r < 2 ^ 32) :
    (IsMetric r = true ↔ r.testBit 23 = false) ∧
    (ValueIsValid r = false ↔ r = 0xFFFFFFFF) ∧
    IsMetric 0xFFFFFFFF = false ∧
    (IsMetric r = true → ValueIsValid r = true) := by
  refine ⟨isMetric_iff r, ?_, by decide, ?_⟩
  · simp [ValueIsValid]
  · intro hm
    exact valid_of_bit_clear r 23 (by norm_num) ((isMetric_iff r).1 hm)

/-- Witness for C10: the metric frame `12345`. -/
theorem IsMetric_ValueIsValid_classify_witness :
    (IsMetric 12345 = true ↔ Nat.testBit 12345 23 = false) ∧
    (ValueIsValid 12345 = false ↔ 12345 = 0xFFFFFFFF) ∧
    IsMetric 0xFFFFFFFF = false ∧
    (IsMetric 12345 = true → ValueIsValid 12345 = true) :=
  IsMetric_ValueIsValid_classify 12345 (by decide)

end CaliperUtils

/-! ## Which bits the decode reads -/

namespace CaliperUtils

/-- The parity of the magnitude is the parity of the frame. -/
theorem mag_mod_two (r : Nat) : (r &&& 0xFFFFF) % 2 = r % 2 := by
  have h : (0xFFFFF : Nat) &&& 1 = 1 := by decide
  rw [← Nat.and_one_is_mod, ← Nat.and_one_is_mod, Nat.and_assoc, h]

/-- The value returned for a valid frame as a signed fraction of the
magnitude: hundredths when bit 23 is clear, half-thousandths when it is set. -/
theorem value_closed (r out : Nat) (mem : Nat → Nat) (hv : r ≠ 0xFFFFFFFF) :
    (RawToValue r out mem).value
      = (if r &&& 0x100000 = 0 then (1 : ℚ) else -1) *
        (((r &&& 0xFFFFF : Nat) : ℚ) / (if r &&& 0x800000 = 0 then 100 else 2000)) := by
  rw [value_of_valid r out mem hv]
  by_cases hm : r &&& 0x800000 = 0
  · rw [if_pos hm, if_pos hm]
  · rw [if_neg hm, if_neg hm, ← mag_mod_two r, half_step]

/-- Two numbers that agree on every bit of a mask have the same masked part. -/
theorem and_congr_of_bits (r1 r2 c : Nat)
    (h : ∀ i, c.testBit i = true → r1.testBit i = r2.testBit i) :
    r1 &&& c = r2 &&& c := by
  apply Nat.eq_of_testBit_eq
  intro i
  rw [Nat.testBit_and, Nat.testBit_and]
  cases hc : c.testBit i
  · simp
  · rw [h i hc]

/-- The bits of the magnitude mask `0xFFFFF` are the bits 0 to 19. -/
theorem mag_mask_bits (i : Nat) (h : Nat.testBit 0xFFFFF i = true) : i < 20 := by
  have h2 : (0xFFFFF : Nat) = 2 ^ 20 - 1 := by norm_num
  rw [h2, Nat.testBit_two_pow_sub_one] at h
  exact of_decide_eq_true h

/-- The only bit of a one-bit mask `2 ^ n` is bit `n`. -/
theorem one_bit_mask_bits (n i : Nat) (h : Nat.testBit (2 ^ n) i = true) : i = n := by
  rw [Nat.testBit_two_pow] at h
  exact (of_decide_eq_true h).symm

/-- Frames that agree on bits 0 to 20 and on bit 23 have the same magnitude,
sign flag, unit flag and parity. -/
theorem fields_congr (r1 r2 : Nat)
    (hag : ∀ i, (i ≤ 20 ∨ i = 23) → r1.testBit i = r2.testBit i) :
    r1 &&& 0xFFFFF = r2 &&& 0xFFFFF ∧ r1 &&& 0x100000 = r2 &&& 0x100000 ∧
    r1 &&& 0x800000 = r2 &&& 0x800000 ∧ r1 % 2 = r2 % 2 := by
  have hmag : r1 &&& 0xFFFFF = r2 &&& 0xFFFFF :=
    and_congr_of_bits r1 r2 _ (fun i hi => hag i (Or.inl (le_of_lt (mag_mask_bits i hi))))
  refine ⟨hmag, ?_, ?_, ?_⟩
  · exact and_congr_of_bits r1 r2 (2 ^ 20)
      (fun i hi => hag i (Or.inl (le_of_eq (one_bit_mask_bits 20 i hi))))
  · exact and_congr_of_bits r1 r2 (2 ^ 23)
      (fun i hi => hag i (Or.inr (one_bit_mask_bits 23 i hi)))
  · rw [← mag_mod_two r1, ← mag_mod_two r2, hmag]

/-- Claim C11.  The decode of a valid frame depends only on bits 0-20 and
bit 23: two 32-bit frames, both different from `0xFFFFFFFF`, that agree on
bits 0 through 20 and on bit 23 decode to the same value and leave the same
memory, hence report the same decimal-place count. -/
theorem RawToValue_reads_fields_only (r1 r2 : Nat) (_h1 : r1 < 2 ^ 32) (_h2 : r2 < 2 ^ 32)
    (hv1 : r1 ≠ 0xFFFFFFFF) (hv2 : r2 ≠ 0xFFFFFFFF)
    (hag : ∀ i, (i ≤ 20 ∨ i = 23) → r1.testBit i = r2.testBit i)
    (out : Nat) (mem : Nat → Nat) :
    (RawToValue r1 out mem).value = (RawToValue r2 out mem).value ∧
    (RawToValue r1 out mem).mem = (RawToValue r2 out mem).mem := by
  obtain ⟨hmag, hsign, hunit, hpar⟩ := fields_congr r1 r2 hag
  constructor
  · rw [value_closed r1 out mem hv1, value_closed r2 out mem hv2, hmag, hsign, hunit]
  · by_cases ho : out = NULL
    · subst ho
      rw [mem_of_null, mem_of_null]
    · rw [mem_of_valid r1 out mem hv1 ho, mem_of_valid r2 out mem hv2 ho, hunit, hpar]

/-- Witness for C11: the frames `0x9009A5` and `0x7FF009A5` share bits 0-20
and bit 23 (both spell -1.2345 in) and differ on bits 21, 22 and 24-30 (bit
31 of the second is clear, so it is not the sentinel). -/
theorem RawToValue_reads_fields_only_witness :
    (RawToValue 0x9009A5 1 (fun _ => 0)).value
      = (RawToValue 0x7FF009A5 1 (fun _ => 0)).value ∧
    (RawToValue 0x9009A5 1 (fun _ => 0)).mem
      = (RawToValue 0x7FF009A5 1 (fun _ => 0)).mem :=
  RawToValue_reads_fields_only 0x9009A5 0x7FF009A5 (by decide) (by decide)
    (by decide) (by decide)
    (fun i h => h.elim
      ((by decide : ∀ j, j ≤ 20 → Nat.testBit 0x9009A5 j = Nat.testBit 0x7FF009A5 j) i)
      (fun e => e ▸ (by decide : Nat.testBit 0x9009A5 23 = Nat.testBit 0x7FF009A5 23)))
    1 (fun _ => 0)

end CaliperUtils

/-! ## What the decimal-place count and the value tell about the frame -/

namespace CaliperUtils

/-- The decimal-place count stored through a non-null pointer, for any
frame. -/
theorem dPlaces_stored (r out : Nat) (mem : Nat → Nat) (ho : out ≠ NULL) :
    (RawToValue r out mem).mem out
      = if r = 0xFFFFFFFF then 0
        else if r.testBit 23 = false then 2
        else if r.testBit 0 = true then 4 else 3 := by
  by_cases hv : r = 0xFFFFFFFF
  · subst hv
    rw [(result_of_sentinel out mem).2, if_neg ho, if_pos rfl, Function.update_same]
  · rw [mem_of_valid r out mem hv ho, if_neg hv, Function.update_same]
    have h23 : (r &&& 0x800000 = 0) = (r.testBit 23 = false) := propext (and_bit23 r)
    have h0 : (r % 2 = 1) = (r.testBit 0 = true) := by
      rw [Nat.testBit_zero]; simp
    simp only [h23, h0]

/-- Claim C12.  For every 32-bit frame `r`, the decimal-place count reported
through a non-null pointer is one of 0, 2, 3, 4 and classifies the frame: it
is 0 exactly when `r = 0xFFFFFFFF`, 2 exactly when bit 23 is clear, 3 exactly
when `r` is valid with bit 23 set and bit 0 clear, and 4 exactly when `r` is
valid with bit 23 set and bit 0 set. -/
theorem RawToValue_dPlaces_classify (r : Nat) (_hr : r < 2 ^ 32)
    (out : Nat) (ho : out ≠ NULL) (mem : Nat → Nat) :
    ((RawToValue r out mem).mem out = 0 ∨ (RawToValue r out mem).mem out = 2 ∨
      (RawToValue r out mem).mem out = 3 ∨ (RawToValue r out mem).mem out = 4) ∧
    ((RawToValue r out mem).mem out = 0 ↔ r = 0xFFFFFFFF) ∧
    ((RawToValue r out mem).mem out = 2 ↔ r.testBit 23 = false) ∧
    ((RawToValue r out mem).mem out = 3 ↔
      r ≠ 0xFFFFFFFF ∧ r.testBit 23 = true ∧ r.testBit 0 = false) ∧
    ((RawToValue r out mem).mem out = 4 ↔
      r ≠ 0xFFFFFFFF ∧ r.testBit 23 = true ∧ r.testBit 0 = true) := by
  rw [dPlaces_stored r out mem ho]
  by_cases hv : r = 0xFFFFFFFF
  · subst hv
    have h23 : Nat.testBit 0xFFFFFFFF 23 = true := by decide
    simp [h23]
  · cases h23 : r.testBit 23 <;> cases h0 : r.testBit 0 <;> simp [hv]

/-- Witness for C12: the imperial frame `0x8009A5` (bit 0 set), decoded
through the pointer `1`: the count is 4. -/
theorem RawToValue_dPlaces_classify_witness :
    (RawToValue 0x8009A5 1 (fun _ => 0)).mem 1 = 4 :=
  ((RawToValue_dPlaces_classify 0x8009A5 (by decide) 1 (by decide) (fun _ => 0)).2.2.2.2).2
    ⟨by decide, by decide, by decide⟩

/-- The scale of a valid frame, 100 or 2000, is positive. -/
theorem scale_pos (r : Nat) : (0 : ℚ) < (if r &&& 0x800000 = 0 then 100 else 2000) := by
  split_ifs <;> norm_num

/-- Claim C13.  For every 32-bit frame `r`, the returned value is 0 exactly
when `r = 0xFFFFFFFF` or the magnitude `r & 0xFFFFF` is 0, and strictly
negative exactly when `r` is valid, bit 20 is set and the magnitude is
non-zero.  So a valid frame with the sign bit set and zero magnitude decodes
to 0, and the sentinel returns the same value as the all-zero frame: only the
decimal-place count, 0 for the sentinel and never 0 for a valid frame, tells
them apart. -/
theorem RawToValue_zero_and_negative (r : Nat) (_hr : r < 2 ^ 32)
    (out : Nat) (mem : Nat → Nat) :
    ((RawToValue r out mem).value = 0 ↔ r = 0xFFFFFFFF ∨ r &&& 0xFFFFF = 0) ∧
    ((RawToValue r out mem).value < 0 ↔
      r ≠ 0xFFFFFFFF ∧ r.testBit 20 = true ∧ r &&& 0xFFFFF ≠ 0) ∧
    (r ≠ 0xFFFFFFFF → r.testBit 20 = true → r &&& 0xFFFFF = 0 →
      (RawToValue r out mem).value = 0) ∧
    (RawToValue 0xFFFFFFFF out mem).value = (RawToValue 0 out mem).value ∧
    (out ≠ NULL → (RawToValue 0xFFFFFFFF out mem).mem out = 0 ∧
      (r ≠ 0xFFFFFFFF → (RawToValue r out mem).mem out ≠ 0)) := by
  have hzero : (RawToValue r out mem).value = 0 ↔ r = 0xFFFFFFFF ∨ r &&& 0xFFFFF = 0 := by
    by_cases hv : r = 0xFFFFFFFF
    · subst hv
      simp [(result_of_sentinel out mem).1]
    · rw [value_closed r out mem hv]
      have hc := scale_pos r
      have hs : (if r &&& 0x100000 = 0 then (1 : ℚ) else -1) ≠ 0 := by
        split_ifs <;> norm_num
      rw [mul_eq_zero, div_eq_zero_iff, Nat.cast_eq_zero]
      constructor
      · rintro (h | h | h)
        · exact absurd h hs
        · exact Or.inr h
        · exact absurd h (ne_of_gt hc)
      · rintro (h | h)
        · exact absurd h hv
        · exact Or.inr (Or.inl h)
  have hneg : (RawToValue r out mem).value < 0 ↔
      r ≠ 0xFFFFFFFF ∧ r.testBit 20 = true ∧ r &&& 0xFFFFF ≠ 0 := by
    by_cases hv : r = 0xFFFFFFFF
    · subst hv
      simp [(result_of_sentinel out mem).1]
    · rw [value_closed r out mem hv]
      have hc := scale_pos r
      have hq : (0 : ℚ) ≤ ((r &&& 0xFFFFF : Nat) : ℚ) / (if r &&& 0x800000 = 0 then 100 else 2000) :=
        div_nonneg (Nat.cast_nonneg _) (le_of_lt hc)
      by_cases hs : r &&& 0x100000 = 0
      · have h20 : r.testBit 20 = false := (and_bit20 r).1 hs
        rw [if_pos hs, one_mul]
        constructor
        · intro h
          exact absurd h (not_lt.2 hq)
        · rintro ⟨_, h, _⟩
          rw [h20] at h
          exact Bool.noConfusion h
      · have h20 : r.testBit 20 = true := by
          cases h : r.testBit 20
          · exact absurd ((and_bit20 r).2 h) hs
          · rfl
        rw [if_neg hs, neg_one_mul, neg_lt_zero]
        constructor
        · intro h
          refine ⟨hv, h20, ?_⟩
          intro hm
          rw [hm] at h
          simp at h
        · rintro ⟨_, _, hm⟩
          apply div_pos _ hc
          exact Nat.cast_pos.2 (Nat.pos_of_ne_zero hm)
  refine ⟨hzero, hneg, ?_, ?_, ?_⟩
  · intro hv _ hm
    exact hzero.2 (Or.inr hm)
  · have h0 : (0 : Nat) &&& 0xFFFFF = 0 := by decide
    rw [(result_of_sentinel out mem).1, value_closed 0 out mem (by decide), h0]
    simp
  · intro ho
    constructor
    · rw [dPlaces_stored _ out mem ho, if_pos rfl]
    · intro hv
      rw [dPlaces_stored r out mem ho, if_neg hv]
      split_ifs <;> decide

/-- Witness for C13: the valid frame `0x100000` (sign bit set, magnitude 0)
decodes to 0. -/
theorem RawToValue_zero_and_negative_witness :
    (RawToValue 0x100000 1 (fun _ => 7)).value = 0 :=
  (RawToValue_zero_and_negative 0x100000 (by decide) 1 (fun _ => 7)).2.2.1
    (by decide) (by decide) (by decide)

end CaliperUtils

/-! ## Order and the optional out-parameter -/

namespace CaliperUtils

/-- Claim C14.  The decode is strictly monotone in the magnitude: for two
32-bit frames with the same unit bit 23 and both with sign bit 20 clear
(hence both valid), a smaller magnitude gives a strictly smaller value.  In
the imperial case this holds across the half-increment bit: the magnitudes
2468 < 2469 < 2470 decode to 1.234 < 1.2345 < 1.235. -/
theorem RawToValue_strict_mono (r1 r2 : Nat) (_h1 : r1 < 2 ^ 32) (_h2 : r2 < 2 ^ 32)
    (hv1 : r1 ≠ 0xFFFFFFFF) (hv2 : r2 ≠ 0xFFFFFFFF)
    (hunit : r1.testBit 23 = r2.testBit 23)
    (hs1 : r1.testBit 20 = false) (hs2 : r2.testBit 20 = false)
    (hlt : r1 &&& 0xFFFFF < r2 &&& 0xFFFFF)
    (out : Nat) (mem : Nat → Nat) :
    (RawToValue r1 out mem).value < (RawToValue r2 out mem).value ∧
    ((RawToValue 0x8009A4 out mem).value = 1.234 ∧
      (RawToValue 0x8009A5 out mem).value = 1.2345 ∧
      (RawToValue 0x8009A6 out mem).value = 1.235) := by
  constructor
  · have e1 : r1 &&& 0x100000 = 0 := (and_bit20 r1).2 hs1
    have e2 : r2 &&& 0x100000 = 0 := (and_bit20 r2).2 hs2
    have hu : (r1 &&& 0x800000 = 0) = (r2 &&& 0x800000 = 0) := by
      rw [propext (and_bit23 r1), propext (and_bit23 r2), hunit]
    rw [value_closed r1 out mem hv1, value_closed r2 out mem hv2, if_pos e1, if_pos e2,
      one_mul, one_mul]
    simp only [hu]
    have hc := scale_pos r2
    have hq : ((r1 &&& 0xFFFFF : Nat) : ℚ) < ((r2 &&& 0xFFFFF : Nat) : ℚ) := Nat.cast_lt.2 hlt
    exact div_lt_div_of_pos_right hq hc
  · have a1 : (0x8009A4 : Nat) &&& 0x100000 = 0 := by decide
    have a2 : (0x8009A4 : Nat) &&& 0x800000 = 0x800000 := by decide
    have a3 : (0x8009A4 : Nat) &&& 0xFFFFF = 2468 := by decide
    have b1 : (0x8009A5 : Nat) &&& 0x100000 = 0 := by decide
    have b2 : (0x8009A5 : Nat) &&& 0x800000 = 0x800000 := by decide
    have b3 : (0x8009A5 : Nat) &&& 0xFFFFF = 2469 := by decide
    have c1 : (0x8009A6 : Nat) &&& 0x100000 = 0 := by decide
    have c2 : (0x8009A6 : Nat) &&& 0x800000 = 0x800000 := by decide
    have c3 : (0x8009A6 : Nat) &&& 0xFFFFF = 2470 := by decide
    refine ⟨?_, ?_, ?_⟩
    · rw [value_closed _ out mem (by decide), a1, a2, a3]; norm_num
    · rw [value_closed _ out mem (by decide), b1, b2, b3]; norm_num
    · rw [value_closed _ out mem (by decide), c1, c2, c3]; norm_num

/-- Witness for C14: the imperial frames of magnitude 2468 and 2469, which
differ only in the half-increment bit. -/
theorem RawToValue_strict_mono_witness :
    (RawToValue 0x8009A4 1 (fun _ => 0)).value < (RawToValue 0x8009A5 1 (fun _ => 0)).value :=
  (RawToValue_strict_mono 0x8009A4 0x8009A5 (by decide) (by decide) (by decide) (by decide)
    (by decide) (by decide) (by decide) (by decide) 1 (fun _ => 0)).1

/-- The returned value depends neither on the pointer nor on the memory. -/
theorem value_indep (r out out2 : Nat) (mem mem2 : Nat → Nat) :
    (RawToValue r out mem).value = (RawToValue r out2 mem2).value := by
  by_cases h1 : out = NULL <;> by_cases h2 : out2 = NULL <;> simp [RawToValue, h1, h2]

/-- A call through a non-null pointer changes no byte other than the one
pointed to. -/
theorem mem_frame (r out : Nat) (mem : Nat → Nat) (ho : out ≠ NULL) (a : Nat)
    (ha : a ≠ out) : (RawToValue r out mem).mem a = mem a := by
  simp [RawToValue, ho, Function.update_noteq ha]

/-- Claim C15.  The out-parameter is optional and does not influence the
result: for every 32-bit frame the value returned is the same with a null
pointer as with any pointer, and does not depend on the memory contents; with
a null pointer the memory is left as it was; with a non-null pointer exactly
the byte pointed to is set, to the decimal-place count (0 for the sentinel,
otherwise 2, 3 or 4), and every other byte keeps its content. -/
theorem RawToValue_out_optional (r : Nat) (_hr : r < 2 ^ 32) (out : Nat)
    (mem mem2 : Nat → Nat) :
    (RawToValue r out mem).value = (RawToValue r NULL mem).value ∧
    (RawToValue r out mem).value = (RawToValue r out mem2).value ∧
    (RawToValue r NULL mem).mem = mem ∧
    (out ≠ NULL →
      (RawToValue r out mem).mem out
        = (if r = 0xFFFFFFFF then 0
           else if r.testBit 23 = false then 2
           else if r.testBit 0 = true then 4 else 3) ∧
      ∀ a, a ≠ out → (RawToValue r out mem).mem a = mem a) := by
  refine ⟨value_indep r out NULL mem mem, value_indep r out out mem mem2,
    mem_of_null r mem, ?_⟩
  intro ho
  exact ⟨dPlaces_stored r out mem ho, fun a ha => mem_frame r out mem ho a ha⟩

/-- Witness for C15: the sentinel decoded through the pointer `1` into a
memory whose bytes all hold 7: byte 1 becomes 0 and byte 2 still holds 7. -/
theorem RawToValue_out_optional_witness :
    (RawToValue 0xFFFFFFFF 1 (fun _ => 7)).mem 1
        = (if (0xFFFFFFFF : Nat) = 0xFFFFFFFF then 0
           else if Nat.testBit 0xFFFFFFFF 23 = false then 2
           else if Nat.testBit 0xFFFFFFFF 0 = true then 4 else 3) ∧
    (RawToValue 0xFFFFFFFF 1 (fun _ => 7)).mem 2 = 7 :=
  ⟨((RawToValue_out_optional 0xFFFFFFFF (by decide) 1 (fun _ => 7) (fun _ => 7)).2.2.2
      (by decide)).1,
   ((RawToValue_out_optional 0xFFFFFFFF (by decide) 1 (fun _ => 7) (fun _ => 7)).2.2.2
      (by decide)).2 2 (by decide)⟩

end CaliperUtils

/-! ## Binary32 rounding -/

namespace CaliperUtils

/-- Rounding to the nearest integer moves a number by at most one half. -/
theorem roundNearestEven_err (q : ℚ) : |(roundNearestEven q : ℚ) - q| ≤ 1 / 2 := by
  unfold roundNearestEven
  have h1 := Int.floor_le q
  have h2 := Int.lt_floor_add_one q
  simp only
  split_ifs with a b c
  · rw [abs_le]; constructor <;> linarith
  · rw [abs_le]; push_cast; constructor <;> linarith
  · rw [abs_le]; constructor <;> linarith
  · rw [abs_le]; push_cast; constructor <;> linarith

/-- An integer closer than one half is the result of rounding. -/
theorem roundNearestEven_eq (q : ℚ) (n : ℤ) (h : |q - n| < 1 / 2) :
    roundNearestEven q = n := by
  rw [abs_lt] at h
  obtain ⟨h1, h2⟩ := h
  unfold roundNearestEven
  simp only
  by_cases hq : (n : ℚ) ≤ q
  · have hf : ⌊q⌋ = n := by
      rw [Int.floor_eq_iff]; constructor <;> linarith
    rw [hf, if_pos (by linarith)]
  · have hf : ⌊q⌋ = n - 1 := by
      rw [Int.floor_eq_iff]; push_cast; constructor <;> linarith
    rw [hf]
    push_cast
    rw [if_neg (by linarith), if_pos (by linarith)]
    ring

/-- The binary exponent of a non-zero rational brackets it. -/
theorem log_bracket (x : ℚ) (hx : x ≠ 0) :
    (2 : ℚ) ^ Int.log 2 |x| ≤ |x| ∧ |x| < (2 : ℚ) ^ (Int.log 2 |x| + 1) := by
  have h1 := Int.zpow_log_le_self (b := 2) (r := |x|) (by norm_num) (abs_pos.2 hx)
  have h2 := Int.lt_zpow_succ_log_self (b := 2) (by norm_num) |x|
  simp only [Nat.cast_ofNat] at h1 h2
  exact ⟨h1, h2⟩

/-- The binary exponent is determined by its bracket. -/
theorem log_eq_of_bracket (x : ℚ) (e : ℤ) (h1 : (2 : ℚ) ^ e ≤ |x|)
    (h2 : |x| < (2 : ℚ) ^ (e + 1)) : Int.log 2 |x| = e := by
  have hpos : (0 : ℚ) < |x| := lt_of_lt_of_le (zpow_pos (by norm_num) e) h1
  have a : e ≤ Int.log 2 |x| := by
    rw [← Int.zpow_le_iff_le_log (by norm_num) hpos]
    simpa using h1
  have b : Int.log 2 |x| < e + 1 := by
    rw [← Int.lt_zpow_iff_log_lt (by norm_num) hpos]
    simpa using h2
  omega

/-- Evaluating a rounding: with the exponent `e` of `x` and an integer `n`
closer than one half to the scaled `x`, the result is `n` scaled back. -/
theorem roundBinary_eq_of (p : Nat) (x : ℚ) (e n : ℤ)
    (h1 : (2 : ℚ) ^ e ≤ |x|) (h2 : |x| < (2 : ℚ) ^ (e + 1))
    (hn : |x / 2 ^ (e - (p - 1)) - n| < 1 / 2) :
    roundBinary p x = n * 2 ^ (e - (p - 1)) := by
  have hx : x ≠ 0 := by
    intro h
    rw [h, abs_zero] at h1
    exact absurd h1 (not_le.2 (zpow_pos (by norm_num) e))
  unfold roundBinary
  rw [if_neg hx]
  simp only
  rw [log_eq_of_bracket x e h1 h2, roundNearestEven_eq _ n hn]

/-- Rounding to `p` significant bits has relative error at most `2 ^ (-p)`. -/
theorem roundBinary_err (p : Nat) (x : ℚ) : |roundBinary p x - x| ≤ |x| / 2 ^ p := by
  by_cases hx : x = 0
  · simp [roundBinary, hx]
  · obtain ⟨h1, _⟩ := log_bracket x hx
    unfold roundBinary
    rw [if_neg hx]
    simp only
    set e := Int.log 2 |x| with he
    have hu : (0 : ℚ) < 2 ^ (e - (p - 1)) := zpow_pos (by norm_num) _
    have hr := roundNearestEven_err (x / 2 ^ (e - (p - 1)))
    have key : (roundNearestEven (x / 2 ^ (e - (p - 1))) : ℚ) * 2 ^ (e - (p - 1)) - x
        = ((roundNearestEven (x / 2 ^ (e - (p - 1))) : ℚ) - x / 2 ^ (e - (p - 1)))
            * 2 ^ (e - (p - 1)) := by
      field_simp
    rw [key, abs_mul, abs_of_pos hu]
    have hsplit : (2 : ℚ) ^ (e - (p - 1)) = 2 ^ e * 2 / 2 ^ p := by
      rw [zpow_sub₀ (by norm_num), zpow_sub₀ (by norm_num), zpow_natCast, zpow_one]
      field_simp
    have hp : (0 : ℚ) < 2 ^ p := pow_pos (by norm_num) p
    calc |(roundNearestEven (x / 2 ^ (e - (p - 1))) : ℚ) - x / 2 ^ (e - (p - 1))|
            * 2 ^ (e - (p - 1))
        ≤ 1 / 2 * 2 ^ (e - (p - 1)) := mul_le_mul_of_nonneg_right hr (le_of_lt hu)
      _ = 2 ^ e / 2 ^ p := by rw [hsplit]; field_simp
      _ ≤ |x| / 2 ^ p := div_le_div_of_nonneg_right h1 (le_of_lt hp)

/-- With at least 24 significant bits the relative error is at most
`2 ^ (-24)`. -/
theorem roundBinary_err24 (p : Nat) (hp : 24 ≤ p) (x : ℚ) :
    |roundBinary p x - x| ≤ |x| / 16777216 := by
  refine le_trans (roundBinary_err p x) ?_
  have h : (16777216 : ℚ) ≤ 2 ^ p := by
    have := pow_le_pow_right₀ (by norm_num : (1 : ℚ) ≤ 2) hp
    norm_num at this
    exact this
  exact div_le_div_of_nonneg_left (abs_nonneg x) (by norm_num) h

/-- A natural number below `2 ^ p` is a floating-point number with `p`
significant bits: rounding leaves it unchanged. -/
theorem roundBinary_natCast (p k : Nat) (hk : k < 2 ^ p) :
    roundBinary p (k : ℚ) = k := by
  by_cases h0 : k = 0
  · simp [roundBinary, h0]
  · have hx : (k : ℚ) ≠ 0 := Nat.cast_ne_zero.2 h0
    have hpos : (0 : ℚ) < |(k : ℚ)| := abs_pos.2 hx
    have hlt : |(k : ℚ)| < ((2 : ℕ) : ℚ) ^ (p : ℤ) := by
      rw [abs_of_nonneg (Nat.cast_nonneg k), zpow_natCast]
      exact_mod_cast hk
    have he : Int.log 2 |(k : ℚ)| < p := (Int.lt_zpow_iff_log_lt (by norm_num) hpos).1 hlt
    unfold roundBinary
    rw [if_neg hx]
    simp only
    set e := Int.log 2 |(k : ℚ)| with hedef
    obtain ⟨n, hn⟩ : ∃ n : ℕ, (n : ℤ) = (p : ℤ) - 1 - e := ⟨((p : ℤ) - 1 - e).toNat, by omega⟩
    have hexp : e - ((p : ℤ) - 1) = -(n : ℤ) := by omega
    rw [hexp, zpow_neg, zpow_natCast]
    have hq : (k : ℚ) / (2 ^ n)⁻¹ = (((k * 2 ^ n : ℕ) : ℤ) : ℚ) := by
      push_cast
      field_simp
    have hr : roundNearestEven ((((k * 2 ^ n : ℕ) : ℤ) : ℚ)) = ((k * 2 ^ n : ℕ) : ℤ) :=
      roundNearestEven_eq _ _ (by simp)
    rw [hq, hr]
    push_cast
    field_simp

/-- The binary32 value returned for a valid frame, branch by branch. -/
theorem value_binary32_of_valid (d r out : Nat) (mem : Nat → Nat) (hv : r ≠ 0xFFFFFFFF) :
    (RawToValue_binary32 d r out mem).value
      = (if r &&& 0x100000 = 0 then (1 : ℚ) else -1) *
        (if r &&& 0x800000 = 0 then
           roundBinary 24 (roundBinary 24 ((r &&& 0xFFFFF : Nat) : ℚ) / 100)
         else if r % 2 = 1 then
           roundBinary 24 (roundBinary d
             (roundBinary 24 (roundBinary 24 (((r &&& 0xFFFFF) >>> 1 : Nat) : ℚ) / 1000)
               + roundBinary d 0.0005))
         else roundBinary 24 (roundBinary 24 (((r &&& 0xFFFFF) >>> 1 : Nat) : ℚ) / 1000)) := by
  have hv2 : ValueIsValid r = true := (valueIsValid_iff r).2 hv
  by_cases ho : out = NULL <;> by_cases hs : r &&& 0x100000 = 0 <;>
    by_cases hm : r &&& 0x800000 = 0 <;> by_cases hb : r % 2 = 1 <;>
    simp [RawToValue_binary32, IsMetric, hv2, ho, hs, hm, hb]

/-- Error of the imperial half-step path: the quotient rounded to binary32,
the constant and the sum rounded to `double`, the result rounded to binary32
again, against the exact sum. -/
theorem half_step_err (d : Nat) (hd : 24 ≤ d) (a : ℚ) (ha : 0 ≤ a) :
    |roundBinary 24 (roundBinary d (roundBinary 24 a + roundBinary d (1 / 2000)))
        - (a + 1 / 2000)| ≤ (a + 1 / 2000) / 4194304 := by
  have e1 := roundBinary_err24 24 le_rfl a
  rw [abs_of_nonneg ha, abs_le] at e1
  have e2 := roundBinary_err24 d hd (1 / 2000)
  rw [abs_of_nonneg (by norm_num : (0 : ℚ) ≤ 1 / 2000), abs_le] at e2
  have hs : 0 ≤ roundBinary 24 a + roundBinary d (1 / 2000) := by linarith [e1.1, e2.1]
  have e3 := roundBinary_err24 d hd (roundBinary 24 a + roundBinary d (1 / 2000))
  rw [abs_of_nonneg hs, abs_le] at e3
  have hs2 : 0 ≤ roundBinary d (roundBinary 24 a + roundBinary d (1 / 2000)) := by
    linarith [e3.1]
  have e4 := roundBinary_err24 24 le_rfl
    (roundBinary d (roundBinary 24 a + roundBinary d (1 / 2000)))
  rw [abs_of_nonneg hs2, abs_le] at e4
  rw [abs_le]
  constructor <;> linarith [e1.1, e1.2, e2.1, e2.2, e3.1, e3.2, e4.1, e4.2]

/-- The binary32 number nearest to 24.69 is 12944671 / 2 ^ 19. -/
theorem roundBinary_metric_2469 :
    roundBinary 24 ((2469 : ℚ) / 100) = 12944671 / 524288 := by
  have h1 : (2 : ℚ) ^ (4 : ℤ) ≤ |(2469 : ℚ) / 100| := by
    rw [abs_of_nonneg (by norm_num)]; norm_num
  have h2 : |(2469 : ℚ) / 100| < (2 : ℚ) ^ ((4 : ℤ) + 1) := by
    rw [abs_of_nonneg (by norm_num)]; norm_num
  have e : ((4 : ℤ) - (((24 : ℕ) : ℤ) - 1)) = -19 := by norm_num
  have h3 : |(2469 : ℚ) / 100 / 2 ^ ((4 : ℤ) - (((24 : ℕ) : ℤ) - 1))
      - ((12944671 : ℤ) : ℚ)| < 1 / 2 := by
    rw [e, abs_lt]
    constructor <;> norm_num
  rw [roundBinary_eq_of 24 (2469 / 100) 4 12944671 h1 h2 h3, e]
  norm_num

/-- Counterexample to claim C6 as stated.  The count 2469 with the sign flag
set encodes -24.69 mm as the frame `0x1009A5`.  In binary32 the decoder
returns -12944671/524288 = -24.690000534057617..., the binary32 number
nearest to -24.69, and not the encoded decimal value -24.69 itself, whatever
the precision of `double` is. -/
theorem RawToValue_encode_roundtrip_counterexample :
    2469 < 2 ^ 20 ∧ encode false true 2469 = 0x1009A5 ∧
    (RawToValue_binary32 24 (encode false true 2469) 1 (fun _ => 0)).value
      = -(12944671 / 524288) ∧
    (RawToValue_binary32 53 (encode false true 2469) 1 (fun _ => 0)).value
      = -(12944671 / 524288) ∧
    (RawToValue_binary32 24 (encode false true 2469) 1 (fun _ => 0)).value
      ≠ -(2469 / 100) ∧
    (RawToValue_binary32 53 (encode false true 2469) 1 (fun _ => 0)).value
      ≠ -(2469 / 100) := by
  have henc : encode false true 2469 = 0x1009A5 := by decide
  have hv : (0x1009A5 : Nat) ≠ 0xFFFFFFFF := by decide
  have a1 : (0x1009A5 : Nat) &&& 0x100000 = 0x100000 := by decide
  have a2 : (0x1009A5 : Nat) &&& 0x800000 = 0 := by decide
  have a3 : (0x1009A5 : Nat) &&& 0xFFFFF = 2469 := by decide
  have r1 : roundBinary 24 ((2469 : Nat) : ℚ) = 2469 := by
    rw [roundBinary_natCast 24 2469 (by norm_num)]; norm_num
  have hval : ∀ d, (RawToValue_binary32 d (encode false true 2469) 1 (fun _ => 0)).value
      = -(12944671 / 524288) := by
    intro d
    rw [henc, value_binary32_of_valid d _ 1 _ hv, a1, a2, a3, r1, roundBinary_metric_2469]
    rw [if_neg (by decide), if_pos rfl]
    ring
  refine ⟨by norm_num, henc, hval 24, hval 53, ?_, ?_⟩
  · rw [hval 24]; norm_num
  · rw [hval 53]; norm_num

/-- Claim C6, as amended.  Round trip through the raw bit layout, for every
count `k < 2 ^ 20`, both signs and every `double` of at least 24 significant
bits.  With the arithmetic read exactly the encoded metric frame decodes to
`k / 100` and the encoded imperial frame to `k / 2000`, negated exactly when
the sign flag was encoded.  In binary32 the value is returned within
floating-point tolerance: the metric frame decodes to the binary32 number
nearest to `k / 100`, with the same sign, at most `(k / 100) / 2 ^ 24` away
from the exact value, and the imperial frame decodes to a value at most
`(k / 2000) / 2 ^ 22` away from the exact value. -/
theorem RawToValue_encode_roundtrip_rounded (k : Nat) (hk : k < 2 ^ 20) (negative : Bool)
    (doublePrecision : Nat) (hd : 24 ≤ doublePrecision) (out : Nat) (mem : Nat → Nat) :
    encode false negative k < 2 ^ 32 ∧ encode true negative k < 2 ^ 32 ∧
    (RawToValue (encode false negative k) out mem).value
      = (if negative then -((k : ℚ) / 100) else (k : ℚ) / 100) ∧
    (RawToValue (encode true negative k) out mem).value
      = (if negative then -((k : ℚ) / 2000) else (k : ℚ) / 2000) ∧
    (RawToValue_binary32 doublePrecision (encode false negative k) out mem).value
      = (if negative then -roundBinary 24 ((k : ℚ) / 100)
         else roundBinary 24 ((k : ℚ) / 100)) ∧
    |(RawToValue_binary32 doublePrecision (encode false negative k) out mem).value
        - (RawToValue (encode false negative k) out mem).value|
      ≤ (k : ℚ) / 100 / 16777216 ∧
    |(RawToValue_binary32 doublePrecision (encode true negative k) out mem).value
        - (RawToValue (encode true negative k) out mem).value|
      ≤ (k : ℚ) / 2000 / 4194304 := by
  obtain ⟨l1, l2, x1, x2⟩ := encode_roundtrip_exact k hk negative out mem
  obtain ⟨m1, m2, m3, _, m5⟩ := encode_fields false negative k hk
  obtain ⟨i1, i2, i3, i4, i5⟩ := encode_fields true negative k hk
  have hvm : encode false negative k ≠ 0xFFFFFFFF := fun h => by
    rw [h] at m5; exact absurd m5 (by norm_num)
  have hvi : encode true negative k ≠ 0xFFFFFFFF := fun h => by
    rw [h] at i5; exact absurd i5 (by norm_num)
  have hm3 : encode false negative k &&& 0x800000 = 0 := m3.2 rfl
  have hi3 : ¬ (encode true negative k &&& 0x800000 = 0) := fun h =>
    Bool.noConfusion (i3.1 h)
  have hk24 : k < 2 ^ 24 := lt_trans hk (by norm_num)
  have hh24 : k >>> 1 < 2 ^ 24 := by
    rw [Nat.shiftRight_eq_div_pow]
    exact lt_of_le_of_lt (Nat.div_le_self k _) hk24
  have hkq : (0 : ℚ) ≤ (k : ℚ) / 100 := div_nonneg (Nat.cast_nonneg k) (by norm_num)
  -- the metric frame in binary32
  have fm : (RawToValue_binary32 doublePrecision (encode false negative k) out mem).value
      = (if negative then -roundBinary 24 ((k : ℚ) / 100)
         else roundBinary 24 ((k : ℚ) / 100)) := by
    rw [value_binary32_of_valid _ _ _ _ hvm, if_pos hm3, m1, roundBinary_natCast 24 k hk24]
    cases negative
    · rw [if_pos (m2.2 rfl)]; simp
    · rw [if_neg (fun h => Bool.noConfusion (m2.1 h))]; simp
  have em := roundBinary_err24 24 le_rfl ((k : ℚ) / 100)
  rw [abs_of_nonneg hkq] at em
  -- the imperial frame in binary32, before the sign
  have ei : ∃ v : ℚ,
      (RawToValue_binary32 doublePrecision (encode true negative k) out mem).value
        = (if negative then -v else v) ∧
      |v - (k : ℚ) / 2000| ≤ (k : ℚ) / 2000 / 4194304 := by
    have ha : (0 : ℚ) ≤ ((k >>> 1 : Nat) : ℚ) / 1000 :=
      div_nonneg (Nat.cast_nonneg _) (by norm_num)
    have hstep := half_step k
    have hc : (0.0005 : ℚ) = 1 / 2000 := by norm_num
    rw [hc] at hstep
    by_cases hodd : k % 2 = 1
    · refine ⟨roundBinary 24 (roundBinary doublePrecision
          (roundBinary 24 (((k >>> 1 : Nat) : ℚ) / 1000)
            + roundBinary doublePrecision (1 / 2000))), ?_, ?_⟩
      · rw [value_binary32_of_valid _ _ _ _ hvi, if_neg hi3, i1, i4, if_pos hodd,
          roundBinary_natCast 24 _ hh24, hc]
        cases negative
        · rw [if_pos (i2.2 rfl)]; simp
        · rw [if_neg (fun h => Bool.noConfusion (i2.1 h))]; simp
      · rw [if_pos hodd] at hstep
        rw [← hstep]
        exact half_step_err doublePrecision hd _ ha
    · refine ⟨roundBinary 24 (((k >>> 1 : Nat) : ℚ) / 1000), ?_, ?_⟩
      · rw [value_binary32_of_valid _ _ _ _ hvi, if_neg hi3, i1, i4, if_neg hodd,
          roundBinary_natCast 24 _ hh24]
        cases negative
        · rw [if_pos (i2.2 rfl)]; simp
        · rw [if_neg (fun h => Bool.noConfusion (i2.1 h))]; simp
      · rw [if_neg hodd, add_zero] at hstep
        rw [← hstep]
        have e := roundBinary_err24 24 le_rfl (((k >>> 1 : Nat) : ℚ) / 1000)
        rw [abs_of_nonneg ha] at e
        refine le_trans e ?_
        linarith
  obtain ⟨v, hv, hverr⟩ := ei
  refine ⟨l1, l2, x1, x2, fm, ?_, ?_⟩
  · rw [fm, x1]
    cases negative
    · simpa using em
    · have : -roundBinary 24 ((k : ℚ) / 100) - -((k : ℚ) / 100)
          = -(roundBinary 24 ((k : ℚ) / 100) - (k : ℚ) / 100) := by ring
      simp only [if_true]
      rw [this, abs_neg]
      exact em
  · rw [hv, x2]
    cases negative
    · simpa using hverr
    · have : -v - -((k : ℚ) / 2000) = -(v - (k : ℚ) / 2000) := by ring
      simp only [if_true]
      rw [this, abs_neg]
      exact hverr

/-- Witness for C6 as amended: the count 2469 with the sign flag set, i.e.
-24.69 mm and -1.2345 in, on a target whose `double` is binary32. -/
theorem RawToValue_encode_roundtrip_rounded_witness :
    (RawToValue (encode false true 2469) 1 (fun _ => 0)).value
      = (if true then -(((2469 : Nat) : ℚ) / 100) else ((2469 : Nat) : ℚ) / 100) ∧
    |(RawToValue_binary32 24 (encode true true 2469) 1 (fun _ => 0)).value
        - (RawToValue (encode true true 2469) 1 (fun _ => 0)).value|
      ≤ ((2469 : Nat) : ℚ) / 2000 / 4194304 :=
  ⟨(RawToValue_encode_roundtrip_rounded 2469 (by decide) true 24 (by decide) 1
      (fun _ => 0)).2.2.1,
   (RawToValue_encode_roundtrip_rounded 2469 (by decide) true 24 (by decide) 1
      (fun _ => 0)).2.2.2.2.2.2⟩

end CaliperUtils
